import Mathlib

/-!
Verification of the Etherscan wallet-tracker backend
(src/mvp_simple_wallet_tracker_backend.py) against its specification.

The Python source is shallowly embedded below: pure helpers become Lean
functions, the upstream-response classification becomes a function into
Except, and the request handler becomes a function taking the two parsed
upstream bodies as oracle inputs.  Machine integers of the source are
modelled as Nat / Int (Python integers are unbounded anyway), and the
Decimal arithmetic of the source is modelled exactly, including the
context precision of 60 significant digits set by getcontext().prec = 60
and the default ROUND_HALF_EVEN rounding.
-/

set_option maxRecDepth 10000

/-- ASCII lower-casing of one character.  Models Python str.lower on the
ASCII data this backend compares (hex addresses, upstream status strings). -/
def lowerChar (c : Char) : Char :=
  if 'A' ≤ c ∧ c ≤ 'Z' then Char.ofNat (c.toNat + 32) else c

/-- Lower-case a string character by character (Python s.lower()). -/
def lowerStr (s : String) : String :=
  String.mk (s.data.map lowerChar)

/-- Does the character list l start with the list pre?  Models Python
str.startswith on the underlying characters. -/
def startsWithL : List Char → List Char → Bool
  | [], _ => true
  | _ :: _, [] => false
  | p :: ps, x :: xs => p == x && startsWithL ps xs

/-- Does hay contain needle as a contiguous run?  Models the Python
membership test (needle in hay) for strings. -/
def hasSubstr (needle : List Char) : List Char → Bool
  | [] => needle.isEmpty
  | x :: xs => startsWithL needle (x :: xs) || hasSubstr needle xs

/-- Is c one of the characters accepted by the character class
[0-9a-fA-F] of the address pattern? -/
def isHexChar (c : Char) : Bool :=
  ('0' ≤ c && c ≤ '9') || ('a' ≤ c && c ≤ 'f') || ('A' ≤ c && c ≤ 'F')

/-- The decimal digit characters. -/
def digitCh : Nat → Char
  | 0 => '0'
  | 1 => '1'
  | 2 => '2'
  | 3 => '3'
  | 4 => '4'
  | 5 => '5'
  | 6 => '6'
  | 7 => '7'
  | 8 => '8'
  | 9 => '9'
  | _ => '?'

/-- Decimal digit characters of n, most significant first (so
natDigits 0 is the single character 0).  This is the digit string that
the Python Decimal fixed-point rendering (format(d, "f")) produces for an
integer value. -/
def natDigits (n : Nat) : List Char :=
  if n < 10 then [digitCh n]
  else natDigits (n / 10) ++ [digitCh (n % 10)]
termination_by n
decreasing_by exact Nat.div_lt_self (by omega) (by norm_num)

/-- Number of significant decimal digits of n, i.e. the number of digits
of the coefficient a Python Decimal with value n carries. -/
def numDigits (n : Nat) : Nat := (natDigits n).length

/-- Drop trailing zero characters.  Models the rstrip("0") step of the
amount formatter. -/
def stripZeros (l : List Char) : List Char :=
  (l.reverse.dropWhile (fun c => c == '0')).reverse

/-- Left-pad a digit list with zero characters to length k. -/
def padZeros (k : Nat) (l : List Char) : List Char :=
  List.replicate (k - l.length) '0' ++ l

/-- Round n to at most p significant decimal digits with half-even
rounding, returning coefficient c and shift s with value c * 10 ^ s.
This is exactly what the Python Decimal context (prec = p,
ROUND_HALF_EVEN) does to an integer-valued result of division or of
normalize when the exact coefficient needs more than p digits. -/
def roundSig (n p : Nat) : Nat × Nat :=
  if numDigits n ≤ p then (n, 0)
  else
    let s := numDigits n - p
    let pw := 10 ^ s
    let c0 := n / pw
    let r := n % pw
    (if 2 * r > pw ∨ (2 * r = pw ∧ c0 % 2 = 1) then c0 + 1 else c0, s)

/-- Magnitude part of the fixed-point decimal rendering of c * 10 ^ e
(for c greater than zero): the digits of the integer part, then, when the
fractional part does not strip away entirely, a point and the fractional
digits with their trailing zeros stripped. -/
def decFixedMag (c : Nat) (e : Int) : List Char :=
  if 0 ≤ e then natDigits (c * 10 ^ e.toNat)
  else
    let k := (-e).toNat
    let frac := stripZeros (padZeros k (natDigits (c % 10 ^ k)))
    if frac = [] then natDigits (c / 10 ^ k) else natDigits (c / 10 ^ k) ++ '.' :: frac

/-- Fixed-point decimal rendering of the value sign * c * 10 ^ e with
trailing fractional zeros stripped and no trailing decimal point: the
composition of Decimal.normalize, format(_, "f") and the
rstrip("0").rstrip(".") step of the source, which together depend only on
the value being printed. -/
def decFixedChars (neg : Bool) (c : Nat) (e : Int) : List Char :=
  if c = 0 then ['0']
  else if neg then '-' :: decFixedMag c e else decFixedMag c e

/-- Value of _fmt_amount on its non-overflow path.  The raw base-unit
value is taken already parsed to an integer (the upstream sends it as a
decimal integer string and Decimal(raw) parses it exactly).  With
decimals ≥ 0 the source divides by 10 ^ decimals in a context with 60
significant digits of precision and half-even rounding; with negative
decimals it keeps the raw value.  The subsequent normalize also rounds to
the context precision, so both paths round the coefficient once to 60
significant digits. -/
def fmt_amount_val (raw : Int) (decimals : Int) : String :=
  let n := raw.natAbs
  let cs := roundSig n 60
  let e : Int := if 0 ≤ decimals then (cs.2 : Int) - decimals else (cs.2 : Int)
  String.mk (decFixedChars (decide (raw < 0)) cs.1 e)

/-- Model of _fmt_amount including the exponent bounds of the Decimal
context: the source sets only prec, keeping the default Emax = 999999
with the Overflow trap enabled, so Overflow aborts the call with an
exception, modelled as none.  It fires first when
Decimal(10) ** Decimal(decimals) itself exceeds Emax (decimals above
999999; the power is computed before the division, so this fires even
for a zero value), and otherwise when the adjusted exponent of the
rounded division or normalize result exceeds Emax (the coefficient from
roundSig already carries a possible rounding carry, so the adjusted
exponent is numDigits of the coefficient minus one plus the exponent).
Underflow is not trapped and cannot fire here: a nonzero integer value
divided by at most 10 ^ 999999 stays at or above Emin = -999999.  On the
non-overflow path the returned string is fmt_amount_val. -/
def fmt_amount (raw : Int) (decimals : Int) : Option String :=
  let n := raw.natAbs
  let cs := roundSig n 60
  let e : Int := if 0 ≤ decimals then (cs.2 : Int) - decimals else (cs.2 : Int)
  if 0 ≤ decimals ∧ 999999 < decimals then none
  else if n ≠ 0 ∧ 999999 < (numDigits cs.1 : Int) - 1 + e then none
  else some (String.mk (decFixedChars (decide (raw < 0)) cs.1 e))

/-- Model of _wei_to_eth: scale by 18 decimals.  The normalizers use the
non-overflow value: at 18 decimals the Overflow path needs a base-unit
value of about a million digits, where the Python call would raise and
the whole request would fail; no claim reaches that path. -/
def wei_to_eth (wei : Int) : String := fmt_amount_val wei 18

/-- Modelled from the specification words (for the refinement claim about
the amount formatter): the exact quotient value / 10 ^ d rendered as a
decimal string with no unnecessary trailing zeros and no trailing decimal
point, the value 0 rendering as the single character 0. -/
def exactQuotientString (v : Int) (d : Nat) : String :=
  String.mk (decFixedChars (decide (v < 0)) v.natAbs (-(d : Int)))

/-- Civil UTC rendering of a unix timestamp.  Models
datetime.fromtimestamp(ts, tz=timezone.utc).isoformat() with the +00:00
suffix replaced by Z, via the standard Gregorian days-from-epoch
conversion. -/
def iso_utc (ts : Nat) : String :=
  let days := ts / 86400
  let secs := ts % 86400
  let z := days + 719468
  let era := z / 146097
  let doe := z % 146097
  let yoe := (doe - doe / 1460 + doe / 36524 - doe / 146096) / 365
  let doy := doe - (365 * yoe + yoe / 4 - yoe / 100)
  let mp := (5 * doy + 2) / 153
  let day := doy - (153 * mp + 2) / 5 + 1
  let month := if mp < 10 then mp + 3 else mp - 9
  let year := yoe + era * 400 + (if month ≤ 2 then 1 else 0)
  String.mk (natDigits year ++ '-' :: padZeros 2 (natDigits month) ++
    '-' :: padZeros 2 (natDigits day) ++ 'T' :: padZeros 2 (natDigits (secs / 3600)) ++
    ':' :: padZeros 2 (natDigits (secs / 60 % 60)) ++ ':' :: padZeros 2 (natDigits (secs % 60)) ++ ['Z'])

/-- Model of _direction: out if the sender equals the queried address
case-insensitively, else in if the recipient does, else other. -/
def direction (me from_addr to_addr : String) : String :=
  let meL := lowerStr me
  if lowerStr from_addr = meL then "out"
  else if lowerStr to_addr = meL then "in"
  else "other"

/-- Model of _is_valid_address, i.e. of re.match applied to the compiled
pattern 0x[0-9a-fA-F]x40 anchored on both sides.  The Python dollar anchor
matches at the end of the string and also just before one newline that
ends the string, so the regex accepts the canonical form and additionally
the canonical form followed by a single trailing newline. -/
def is_valid_address (addr : String) : Bool :=
  startsWithL ("0x".data) addr.data &&
  (let rest := addr.data.drop 2
   (rest.length == 40 && rest.all isHexChar) ||
   (rest.length == 41 && (rest.take 40).all isHexChar && rest.getLast? == some '\n'))

/-- Modelled from the specification words (for the address-validation
claim): exactly the two characters 0x followed by exactly 40 hexadecimal
characters. -/
def isCanonicalAddress (s : String) : Bool :=
  startsWithL ("0x".data) s.data &&
  ((s.data.drop 2).length == 40 && (s.data.drop 2).all isHexChar)

/-- An HTTP-level failure raised by the backend (fastapi HTTPException):
a status code and a human-readable detail string. -/
structure HTTPError where
  code : Nat
  detail : String
deriving DecidableEq

/-- The result payload of an upstream JSON body: a list of records on
success and a free-text string on the error paths (section 4.2 of the
specification: a list on success and either a list or a free-text string
on failure). -/
inductive Payload (α : Type) where
  | items : List α → Payload α
  | text : String → Payload α
deriving DecidableEq

/-- A parsed upstream JSON body: the status code string, the message
string, and the result payload. -/
structure EtherscanBody (α : Type) where
  status : String
  message : String
  result : Payload α
deriving DecidableEq

/-- Model of str(data.get("result") or "Etherscan NOTOK"): Python treats
an empty string and an empty list as falsy and falls back to the fixed
text; a non-empty item list is rendered by the Python str builtin, which
the embedding takes as a parameter (itemsRepr) since no claim depends on
its exact output. -/
def payloadDetail {α : Type} (itemsRepr : List α → String) : Payload α → String
  | .text s => if s = "" then "Etherscan NOTOK" else s
  | .items l => if l.isEmpty then "Etherscan NOTOK" else itemsRepr l

/-- Model of the response-classification part of _etherscan (lines 77-93
of the source): the network call and JSON parse are external, so the
function takes the parsed body and returns either the body that the
Python function returns or the HTTPException it raises.  A status of 0
with message exactly NOTOK raises 429 when the detail contains the text
rate limit case-insensitively and 502 otherwise; a status of 0 with a
message starting case-insensitively with no transactions is remapped to a
successful body with an empty result list (the Python dict literal has no
message key, modelled as an empty message); every other body is returned
unchanged. -/
def etherscanClassify {α : Type} (itemsRepr : List α → String)
    (data : EtherscanBody α) : Except HTTPError (EtherscanBody α) :=
  if data.status = "0" ∧ data.message = "NOTOK" then
    let detail := payloadDetail itemsRepr data.result
    if hasSubstr ("rate limit".data) ((lowerStr detail).data) then
      .error ⟨429, "Etherscan: " ++ detail⟩
    else
      .error ⟨502, "Etherscan error: " ++ detail⟩
  else if data.status = "0" ∧ startsWithL ("no transactions".data) ((lowerStr data.message).data) then
    .ok ⟨"1", "", .items []⟩
  else
    .ok data

/-- A raw upstream native-coin (txlist) record.  String-to-integer parses
done by the source (int(it["timeStamp"]) and Decimal on the value string)
are taken as already applied; fields read with dict.get are Options. -/
structure RawEthItem where
  timeStamp : Nat
  hash : String
  fromAddr : Option String
  toAddr : Option String
  value : Option Int
  isError : Option String
  txreceipt_status : Option String
  functionName : Option String
deriving DecidableEq

/-- A raw upstream token-transfer (tokentx) record. -/
structure RawTokenItem where
  timeStamp : Nat
  hash : String
  fromAddr : Option String
  toAddr : Option String
  value : Option Int
  tokenDecimal : Option Int
  tokenSymbol : Option String
  contractAddress : Option String
deriving DecidableEq

/-- The normalized output item: the union of the two dict shapes built by
_normalize_eth_item and _normalize_erc20_item.  The keys present in only
one shape (status for native items, tokenContract for token items) are
Options that the other normalizer leaves none. -/
structure NormItem where
  type : String
  timestamp : Nat
  time_utc : String
  hash : String
  fromAddr : Option String
  toAddr : Option String
  direction : String
  amount : String
  symbol : String
  functionName : String
  status : Option String
  tokenContract : Option String
  link : String
deriving DecidableEq

/-- Model of the split("(")[0] step: the characters before the first
opening parenthesis, the whole string when it has none. -/
def beforeParen (s : String) : String :=
  String.mk (s.data.takeWhile (fun c => c ≠ '('))

/-- Model of _normalize_eth_item. -/
def normalize_eth_item (me : String) (it : RawEthItem) : NormItem :=
  let ts := it.timeStamp
  let is_error := it.isError == some "1"
  let tx_status :=
    if is_error then "failed"
    else if it.txreceipt_status == some "1" then "success" else "unknown"
  let fn := beforeParen (it.functionName.getD "")
  { type := "ETH"
    timestamp := ts
    time_utc := iso_utc ts
    hash := it.hash
    fromAddr := it.fromAddr
    toAddr := it.toAddr
    direction := direction me (it.fromAddr.getD "") (it.toAddr.getD "")
    amount := wei_to_eth (it.value.getD 0)
    symbol := "ETH"
    functionName := fn
    status := some tx_status
    tokenContract := none
    link := "https://etherscan.io/tx/" ++ it.hash }

/-- Model of _normalize_erc20_item.  The source computes
int(it.get("tokenDecimal") or 0), so a missing decimal count falls back
to 0, and it.get("tokenSymbol") or "TOKEN" makes a missing or empty
symbol fall back to the TOKEN placeholder. -/
def normalize_erc20_item (me : String) (it : RawTokenItem) : NormItem :=
  let ts := it.timeStamp
  let decimals := it.tokenDecimal.getD 0
  let symbol :=
    match it.tokenSymbol with
    | some s => if s = "" then "TOKEN" else s
    | none => "TOKEN"
  { type := "ERC20"
    timestamp := ts
    time_utc := iso_utc ts
    hash := it.hash
    fromAddr := it.fromAddr
    toAddr := it.toAddr
    direction := direction me (it.fromAddr.getD "") (it.toAddr.getD "")
    amount := fmt_amount_val (it.value.getD 0) decimals
    symbol := symbol
    functionName := ""
    status := none
    tokenContract := it.contractAddress
    link := "https://etherscan.io/tx/" ++ it.hash }

/-- Stable insertion of x in front of the first element whose timestamp
is not larger. -/
def insertByTsDesc (x : NormItem) : List NormItem → List NormItem
  | [] => [x]
  | y :: ys =>
      if y.timestamp ≤ x.timestamp then x :: y :: ys
      else y :: insertByTsDesc x ys

/-- Model of combined.sort(key=lambda x: x["timestamp"], reverse=True).
The Python sort is specified as a stable sort; stable sorting by a total
preorder has a unique result, so this stable insertion sort computes
exactly the list the source computes. -/
def sortByTsDesc : List NormItem → List NormItem
  | [] => []
  | x :: xs => insertByTsDesc x (sortByTsDesc xs)

/-- The response document built by get_transactions: the queried address,
the number of returned items, the two per-category counts of the counts
dict, and the merged item list. -/
structure Feed where
  address : String
  returned : Nat
  countETH : Nat
  countERC20 : Nat
  items : List NormItem
deriving DecidableEq

/-- The merge-sort-truncate-count core of get_transactions (lines
152-176): normalize both fetched lists, concatenate native before token,
sort by timestamp descending (stable), truncate to the limit, and count
each category over the truncated list. -/
def get_transactions_core (address : String) (limit : Nat)
    (ethRaw : List RawEthItem) (tokRaw : List RawTokenItem) : Feed :=
  let eth_items := ethRaw.map (normalize_eth_item address)
  let erc20_items := tokRaw.map (normalize_erc20_item address)
  let combined := eth_items ++ erc20_items
  let latest := (sortByTsDesc combined).take limit
  { address := address
    returned := latest.length
    countETH := latest.countP (fun x => x.type == "ETH")
    countERC20 := latest.countP (fun x => x.type == "ERC20")
    items := latest }

/-- Model of data.get("result", []) as used on the classified bodies.  On
the success paths the upstream result is a record list; a free-text
result would make the Python list comprehension iterate over characters
and raise a TypeError, a path no claim exercises, so the embedding maps
it to the empty list. -/
def getResultItems {α : Type} : Payload α → List α
  | .items l => l
  | .text _ => []

/-- Model of the get_transactions endpoint.  The fastapi Query constraint
ge=1, le=200 rejects an out-of-range limit with a 422 validation error
before the handler body runs; then the handler rejects a syntactically
invalid address with a 400 before issuing any upstream request, fetches
and classifies the native-coin body and then the token body, and finally
merges.  The two parsed upstream bodies are oracle inputs, so that the
theorems can quantify over every upstream behaviour. -/
def get_transactions (reprE : List RawEthItem → String)
    (reprT : List RawTokenItem → String) (address : String) (limit : Int)
    (ethBody : EtherscanBody RawEthItem) (tokBody : EtherscanBody RawTokenItem) :
    Except HTTPError Feed :=
  if ¬ (1 ≤ limit ∧ limit ≤ 200) then
    .error ⟨422, "limit must be in the inclusive range 1..200"⟩
  else if ¬ is_valid_address address then
    .error ⟨400, "Invalid address. Expected a 0x EVM address."⟩
  else
    match etherscanClassify reprE ethBody with
    | .error e => .error e
    | .ok txlist =>
        match etherscanClassify reprT tokBody with
        | .error e => .error e
        | .ok tokentx =>
            .ok (get_transactions_core address limit.toNat
              (getResultItems txlist.result) (getResultItems tokentx.result))

/-! Helper lemmas about the stable insertion sort. -/

/-- Inserting is a permutation of consing. -/
theorem insertByTsDesc_perm (x : NormItem) (l : List NormItem) :
    (insertByTsDesc x l).Perm (x :: l) := by
  induction l with
  | nil => simp [insertByTsDesc]
  | cons y ys ih =>
      by_cases h : y.timestamp ≤ x.timestamp
      · simp [insertByTsDesc, h]
      · simp only [insertByTsDesc, if_neg h]
        exact ((ih.cons y).trans (List.Perm.swap x y ys))

/-- The sort permutes its input. -/
theorem sortByTsDesc_perm (l : List NormItem) : (sortByTsDesc l).Perm l := by
  induction l with
  | nil => simp [sortByTsDesc]
  | cons x xs ih =>
      exact (insertByTsDesc_perm x (sortByTsDesc xs)).trans (ih.cons x)

/-- Insertion preserves the descending-by-timestamp pairwise order. -/
theorem insertByTsDesc_pairwise (x : NormItem) (l : List NormItem)
    (h : l.Pairwise (fun a b => b.timestamp ≤ a.timestamp)) :
    (insertByTsDesc x l).Pairwise (fun a b => b.timestamp ≤ a.timestamp) := by
  induction l with
  | nil => simp [insertByTsDesc]
  | cons y ys ih =>
      rcases List.pairwise_cons.mp h with ⟨hy, hys⟩
      by_cases hc : y.timestamp ≤ x.timestamp
      · rw [insertByTsDesc, if_pos hc]
        refine List.pairwise_cons.mpr ⟨?_, h⟩
        intro z hz
        rcases List.mem_cons.mp hz with rfl | hz2
        · exact hc
        · exact le_trans (hy z hz2) hc
      · rw [insertByTsDesc, if_neg hc]
        refine List.pairwise_cons.mpr ⟨?_, ih hys⟩
        intro z hz
        have hz2 := (insertByTsDesc_perm x ys).mem_iff.mp hz
        rcases List.mem_cons.mp hz2 with rfl | hz3
        · omega
        · exact hy z hz3

/-- The sorted output is descending in timestamp. -/
theorem sortByTsDesc_pairwise (l : List NormItem) :
    (sortByTsDesc l).Pairwise (fun a b => b.timestamp ≤ a.timestamp) := by
  induction l with
  | nil => simp [sortByTsDesc]
  | cons x xs ih => exact insertByTsDesc_pairwise x (sortByTsDesc xs) ih

/-- Stability of one insertion, phrased per timestamp class: the elements
with any fixed timestamp t appear in the same order before and after the
insertion, with x in front of its class when it belongs to it. -/
theorem insertByTsDesc_filter (t : Nat) (x : NormItem) (l : List NormItem) :
    (insertByTsDesc x l).filter (fun y => y.timestamp == t) =
      (if x.timestamp = t then [x] else []) ++ l.filter (fun y => y.timestamp == t) := by
  induction l with
  | nil =>
      rw [insertByTsDesc]
      by_cases h : x.timestamp = t <;> simp [List.filter_cons, beq_iff_eq, h]
  | cons y ys ih =>
      by_cases hc : y.timestamp ≤ x.timestamp
      · rw [insertByTsDesc, if_pos hc]
        by_cases hx : x.timestamp = t <;>
          simp [List.filter_cons, beq_iff_eq, hx]
      · rw [insertByTsDesc, if_neg hc]
        by_cases hy : y.timestamp = t
        · have hx : ¬ x.timestamp = t := by omega
          simp [List.filter_cons, beq_iff_eq, hy, hx, ih]
        · simp [List.filter_cons, beq_iff_eq, hy, ih]

/-- Stability of the whole sort: each timestamp class keeps its original
relative order. -/
theorem sortByTsDesc_filter (t : Nat) (l : List NormItem) :
    (sortByTsDesc l).filter (fun y => y.timestamp == t) =
      l.filter (fun y => y.timestamp == t) := by
  induction l with
  | nil => rfl
  | cons x xs ih =>
      rw [sortByTsDesc, insertByTsDesc_filter, ih, List.filter_cons]
      by_cases hx : x.timestamp = t <;> simp [beq_iff_eq, hx]

/-! Helper lemmas about the decimal digit rendering. -/

/-- Every character produced by natDigits is a decimal digit character. -/
theorem natDigits_mem (n : Nat) : ∀ c ∈ natDigits n, ∃ d, d < 10 ∧ c = digitCh d := by
  induction n using Nat.strong_induction_on with
  | _ n ih =>
      rw [natDigits]
      by_cases h : n < 10
      · rw [if_pos h]
        intro c hc
        rw [List.mem_singleton] at hc
        exact ⟨n, h, hc⟩
      · rw [if_neg h]
        intro c hc
        rcases List.mem_append.mp hc with hc1 | hc2
        · exact ih (n / 10) (Nat.div_lt_self (by omega) (by norm_num)) c hc1
        · rw [List.mem_singleton] at hc2
          exact ⟨n % 10, Nat.mod_lt _ (by norm_num), hc2⟩

/-- The digit rendering is never empty. -/
theorem natDigits_ne_nil (n : Nat) : natDigits n ≠ [] := by
  rw [natDigits]
  by_cases h : n < 10 <;> simp [h]

/-- Value of one decimal digit character (inverse of digitCh on digits). -/
def digitVal : Char → Nat
  | '0' => 0
  | '1' => 1
  | '2' => 2
  | '3' => 3
  | '4' => 4
  | '5' => 5
  | '6' => 6
  | '7' => 7
  | '8' => 8
  | '9' => 9
  | _ => 0

/-- Read a most-significant-first digit list back into a number. -/
def parseNat (l : List Char) : Nat :=
  l.foldl (fun a c => 10 * a + digitVal c) 0

/-- On digits below ten, digitVal inverts digitCh. -/
theorem digitVal_digitCh : ∀ d, d < 10 → digitVal (digitCh d) = d := by decide

/-- Folding the digits of n over any accumulator. -/
theorem foldl_natDigits (n : Nat) : ∀ a : Nat,
    (natDigits n).foldl (fun x c => 10 * x + digitVal c) a =
      a * 10 ^ (natDigits n).length + n := by
  induction n using Nat.strong_induction_on with
  | _ n ih =>
      intro a
      rw [natDigits]
      by_cases h : n < 10
      · rw [if_pos h]
        simp [List.foldl, digitVal_digitCh n h]
        ring
      · rw [if_neg h]
        rw [List.foldl_append]
        rw [ih (n / 10) (Nat.div_lt_self (by omega) (by norm_num)) a]
        have hv := digitVal_digitCh (n % 10) (Nat.mod_lt _ (by norm_num))
        simp [List.foldl, hv, List.length_append]
        have hmod := Nat.div_add_mod n 10
        ring_nf
        omega

/-- Reading back the digits of n gives n. -/
theorem parseNat_natDigits (n : Nat) : parseNat (natDigits n) = n := by
  unfold parseNat
  rw [foldl_natDigits n 0]
  simp

/-- The digit rendering is injective. -/
theorem natDigits_inj {m n : Nat} (h : natDigits m = natDigits n) : m = n := by
  have hm := parseNat_natDigits m
  have hn := parseNat_natDigits n
  rw [h] at hm
  omega

/-- Appending k zero digits renders a number scaled by 10 ^ k. -/
theorem natDigits_mul_pow (a : Nat) (ha : 0 < a) :
    ∀ k, natDigits (a * 10 ^ k) = natDigits a ++ List.replicate k '0' := by
  intro k
  induction k with
  | zero => simp
  | succ k ih =>
      have hge : 10 ^ (k + 1) ≥ 10 := by
        calc (10:Nat) = 10 ^ 1 := (pow_one 10).symm
        _ ≤ 10 ^ (k + 1) := Nat.pow_le_pow_right (by norm_num) (by omega)
      have h10 : ¬ a * 10 ^ (k + 1) < 10 := by
        have : 10 ^ (k + 1) ≤ a * 10 ^ (k + 1) := Nat.le_mul_of_pos_left _ ha
        omega
      rw [natDigits, if_neg h10]
      have hd : a * 10 ^ (k + 1) / 10 = a * 10 ^ k := by
        rw [pow_succ, ← mul_assoc]
        exact Nat.mul_div_cancel (a * 10 ^ k) (by norm_num)
      have hm : a * 10 ^ (k + 1) % 10 = 0 := by
        rw [pow_succ, ← mul_assoc]
        exact Nat.mul_mod_left _ _
      rw [hd, hm, ih]
      rw [List.replicate_succ' k '0']
      simp [digitCh]

/-- Digit count of a number with k + 1 digits. -/
theorem numDigits_eq (k : Nat) : ∀ n, 10 ^ k ≤ n → n < 10 ^ (k + 1) → numDigits n = k + 1 := by
  induction k with
  | zero =>
      intro n h1 h2
      unfold numDigits
      rw [natDigits, if_pos (by simpa using h2)]
      rfl
  | succ k ih =>
      intro n h1 h2
      have hge : (10:Nat) ≤ 10 ^ (k + 1) := by
        calc (10:Nat) = 10 ^ 1 := (pow_one 10).symm
        _ ≤ 10 ^ (k + 1) := Nat.pow_le_pow_right (by norm_num) (by omega)
      have h10 : ¬ n < 10 := by omega
      unfold numDigits
      rw [natDigits, if_neg h10, List.length_append]
      have hdiv1 : 10 ^ k ≤ n / 10 := by
        rw [Nat.le_div_iff_mul_le (by norm_num)]
        calc 10 ^ k * 10 = 10 ^ (k + 1) := by ring
        _ ≤ n := h1
      have hdiv2 : n / 10 < 10 ^ (k + 1) := by
        rw [Nat.div_lt_iff_lt_mul (by norm_num)]
        calc n < 10 ^ (k + 1 + 1) := h2
        _ = 10 ^ (k + 1) * 10 := by ring
      have hrec := ih (n / 10) hdiv1 hdiv2
      unfold numDigits at hrec
      simp [hrec]

/-- The head of a dropWhile run fails the predicate. -/
theorem head_dropWhile_ne (p : Char → Bool) (l : List Char) (a : Char)
    (h : (l.dropWhile p).head? = some a) : p a = false := by
  induction l with
  | nil => simp [List.dropWhile] at h
  | cons x xs ih =>
      rw [List.dropWhile_cons] at h
      by_cases hp : p x
      · rw [if_pos hp] at h
        exact ih h
      · rw [if_neg hp] at h
        simp at h
        rw [← h]
        simpa using hp

/-- A stripped list never ends in a zero character. -/
theorem stripZeros_getLast (l : List Char) (a : Char)
    (h : (stripZeros l).getLast? = some a) : a ≠ '0' := by
  unfold stripZeros at h
  rw [List.getLast?_reverse] at h
  have hfail := head_dropWhile_ne _ _ _ h
  simpa using hfail

/-- Stripping trailing zeros keeps only original characters. -/
theorem stripZeros_subset (l : List Char) : ∀ c ∈ stripZeros l, c ∈ l := by
  intro c hc
  unfold stripZeros at hc
  rw [List.mem_reverse] at hc
  have hsub := (List.dropWhile_sublist (fun ch => ch == '0') (l := l.reverse)).subset hc
  exact List.mem_reverse.mp hsub

/-- No digit character below ten is a point. -/
theorem digitCh_ne_dot : ∀ d, d < 10 → digitCh d ≠ '.' := by decide

/-- Digit renderings contain no point. -/
theorem natDigits_ne_dot (n : Nat) : ∀ c ∈ natDigits n, c ≠ '.' := by
  intro c hc
  rcases natDigits_mem n c hc with ⟨d, hd, rfl⟩
  exact digitCh_ne_dot d hd

/-- Characters of a padded digit rendering are never a point. -/
theorem padZeros_ne_dot (k : Nat) (n : Nat) : ∀ c ∈ padZeros k (natDigits n), c ≠ '.' := by
  intro c hc
  rcases List.mem_append.mp hc with h1 | h2
  · rw [List.eq_of_mem_replicate h1]
    decide
  · exact natDigits_ne_dot n c h2

/-- The magnitude rendering is never empty. -/
theorem decFixedMag_ne_nil (c : Nat) (e : Int) : decFixedMag c e ≠ [] := by
  simp only [decFixedMag]
  split_ifs with h1 h2
  · exact natDigits_ne_nil _
  · exact natDigits_ne_nil _
  · simp [natDigits_ne_nil]

/-- The last character of the magnitude rendering is not a point, and when
a point occurs in it, the last character is not a zero either. -/
theorem decFixedMag_getLast (c : Nat) (e : Int) (a : Char)
    (h : (decFixedMag c e).getLast? = some a) :
    a ≠ '.' ∧ ('.' ∈ decFixedMag c e → a ≠ '0') := by
  by_cases he : 0 ≤ e
  · have hmag : decFixedMag c e = natDigits (c * 10 ^ e.toNat) := by
      simp only [decFixedMag, if_pos he]
    rw [hmag] at h ⊢
    refine ⟨natDigits_ne_dot _ a (List.mem_of_mem_getLast? h), ?_⟩
    intro hdot
    exact absurd rfl (natDigits_ne_dot _ '.' hdot)
  · have hmag : decFixedMag c e =
        (if stripZeros (padZeros (-e).toNat (natDigits (c % 10 ^ (-e).toNat))) = []
         then natDigits (c / 10 ^ (-e).toNat)
         else natDigits (c / 10 ^ (-e).toNat) ++ '.' ::
           stripZeros (padZeros (-e).toNat (natDigits (c % 10 ^ (-e).toNat)))) := by
      simp only [decFixedMag, if_neg he]
    rw [hmag] at h ⊢
    by_cases hf : stripZeros (padZeros (-e).toNat (natDigits (c % 10 ^ (-e).toNat))) = []
    · rw [if_pos hf] at h ⊢
      refine ⟨natDigits_ne_dot _ a (List.mem_of_mem_getLast? h), ?_⟩
      intro hdot
      exact absurd rfl (natDigits_ne_dot _ '.' hdot)
    · rw [if_neg hf] at h ⊢
      have hsplit : ('.' :: stripZeros (padZeros (-e).toNat (natDigits (c % 10 ^ (-e).toNat)))) =
          ['.'] ++ stripZeros (padZeros (-e).toNat (natDigits (c % 10 ^ (-e).toNat))) := rfl
      rw [List.getLast?_append_of_ne_nil _ (by simp), hsplit,
        List.getLast?_append_of_ne_nil _ hf] at h
      have ha0 : a ≠ '0' := stripZeros_getLast _ a h
      have hmem := List.mem_of_mem_getLast? h
      have hsubm := stripZeros_subset _ a hmem
      exact ⟨padZeros_ne_dot _ _ a hsubm, fun _ => ha0⟩

/-- The full rendering never ends in a point, and when it contains a
point it does not end in a zero: no trailing decimal point, no
unnecessary trailing zero. -/
theorem decFixedChars_getLast (neg : Bool) (c : Nat) (e : Int) (a : Char)
    (h : (decFixedChars neg c e).getLast? = some a) :
    a ≠ '.' ∧ ('.' ∈ decFixedChars neg c e → a ≠ '0') := by
  by_cases hc : c = 0
  · simp only [decFixedChars, if_pos hc] at h ⊢
    simp at h
    subst h
    exact ⟨by decide, by intro hdot; simp at hdot⟩
  · simp only [decFixedChars, if_neg hc] at h ⊢
    by_cases hn : neg = true
    · rw [if_pos hn] at h ⊢
      have hne := decFixedMag_ne_nil c e
      have hcons : ('-' :: decFixedMag c e) = ['-'] ++ decFixedMag c e := rfl
      rw [hcons, List.getLast?_append_of_ne_nil _ hne] at h
      have hmain := decFixedMag_getLast c e a h
      refine ⟨hmain.1, ?_⟩
      intro hdot
      rw [hcons] at hdot
      rcases List.mem_append.mp hdot with h1 | h2
      · simp at h1
      · exact hmain.2 h2
    · rw [if_neg hn] at h ⊢
      exact decFixedMag_getLast c e a h

/-- A successful startsWithL test decomposes the list. -/
theorem startsWithL_decomp (pre : List Char) : ∀ l : List Char,
    startsWithL pre l = true → pre ++ l.drop pre.length = l := by
  induction pre with
  | nil => intro l _; simp
  | cons p ps ih =>
      intro l h
      cases l with
      | nil => simp [startsWithL] at h
      | cons x xs =>
          rw [startsWithL] at h
          simp only [Bool.and_eq_true, beq_iff_eq] at h
          rcases h with ⟨rfl, h2⟩
          simpa using ih xs h2

/-- Unfolding of the non-overflow value on a nonnegative raw value. -/
theorem fmt_amount_val_ofNat (n : Nat) (d : Int) :
    fmt_amount_val (n : Int) d =
      String.mk (decFixedChars false (roundSig n 60).1
        (if 0 ≤ d then ((roundSig n 60).2 : Int) - d else ((roundSig n 60).2 : Int))) := by
  have hlt : ¬ ((n : Int) < 0) := by
    simp
  simp only [fmt_amount_val, Int.natAbs_ofNat, decide_eq_false hlt]

/-- On its non-overflow branch the formatter returns the plain value. -/
theorem fmt_amount_eq_val (raw decimals : Int)
    (h1 : ¬ (0 ≤ decimals ∧ (999999 : Int) < decimals))
    (h2 : ¬ (raw.natAbs ≠ 0 ∧ (999999 : Int) <
      (numDigits (roundSig raw.natAbs 60).1 : Int) - 1 +
        (if 0 ≤ decimals then ((roundSig raw.natAbs 60).2 : Int) - decimals
         else ((roundSig raw.natAbs 60).2 : Int)))) :
    fmt_amount raw decimals = some (fmt_amount_val raw decimals) := by
  simp only [fmt_amount, fmt_amount_val, if_neg h1, if_neg h2]

/-- The digit rendering of zero. -/
theorem natDigits_zero : natDigits 0 = ['0'] := by
  rw [natDigits]
  decide

/-- The digit rendering of one. -/
theorem natDigits_one : natDigits 1 = ['1'] := by
  rw [natDigits]
  decide

/-- Every number has at least one digit. -/
theorem numDigits_pos (n : Nat) : 0 < numDigits n := by
  unfold numDigits
  exact List.length_pos.mpr (natDigits_ne_nil n)

/-- A positive number is at least the power of ten below its leading
digit. -/
theorem pow_numDigits_le (m : Nat) (hm : 0 < m) : 10 ^ (numDigits m - 1) ≤ m := by
  induction m using Nat.strong_induction_on with
  | _ m ih =>
      by_cases hlt : m < 10
      · have h1 : numDigits m = 1 := numDigits_eq 0 m (by omega) (by simpa using hlt)
        rw [h1]
        simpa using hm
      · have hplus : numDigits m = numDigits (m / 10) + 1 := by
          unfold numDigits
          rw [natDigits, if_neg hlt, List.length_append]
          rfl
        have hq : 0 < m / 10 := Nat.div_pos (by omega) (by norm_num)
        have hih := ih (m / 10) (Nat.div_lt_self (by omega) (by norm_num)) hq
        have hnd1 : 1 ≤ numDigits (m / 10) := numDigits_pos _
        rw [hplus]
        calc 10 ^ (numDigits (m / 10) + 1 - 1) = 10 ^ (numDigits (m / 10) - 1) * 10 := by
              rw [← pow_succ]
              congr 1
              omega
        _ ≤ (m / 10) * 10 := Nat.mul_le_mul_right _ hih
        _ ≤ m := Nat.div_mul_le_self m 10

/-- The rounded coefficient of a positive number is positive. -/
theorem roundSig_fst_pos (m : Nat) (hm : 0 < m) : 0 < (roundSig m 60).1 := by
  by_cases hc : numDigits m ≤ 60
  · simp only [roundSig, if_pos hc]
    exact hm
  · simp only [roundSig, if_neg hc]
    have hdigle := pow_numDigits_le m hm
    have hquot : 0 < m / 10 ^ (numDigits m - 60) := by
      apply Nat.div_pos ?hle (pow_pos (by norm_num) _)
      calc 10 ^ (numDigits m - 60) ≤ 10 ^ (numDigits m - 1) :=
            Nat.pow_le_pow_right (by norm_num) (by omega)
      _ ≤ m := hdigle
    split_ifs <;> omega

/-- C3 (counterexample): at 10 ^ 60 + 1 base units with 0 decimals the
formatter rounds to the 60-significant-digit context precision, so it
does not return the exact quotient the claim promises. -/
theorem C3_counterexample :
    fmt_amount ((10 : Int) ^ 60 + 1) 0 ≠
      some (exactQuotientString ((10 : Int) ^ 60 + 1) 0) := by
  have hv : ((10 : Int) ^ 60 + 1) = ((10 ^ 60 + 1 : Nat) : Int) := by norm_num
  have hnd : numDigits (10 ^ 60 + 1) = 61 := numDigits_eq 60 _ (by norm_num) (by norm_num)
  have hrs : roundSig (10 ^ 60 + 1) 60 = (10 ^ 59, 1) := by
    simp only [roundSig, hnd]
    norm_num
  have hnd59 : numDigits (10 ^ 59) = 60 := numDigits_eq 59 _ (by norm_num) (by norm_num)
  have hab : ((10 : Int) ^ 60 + 1).natAbs = 10 ^ 60 + 1 := by norm_num
  have h1c : ¬ ((0 : Int) ≤ 0 ∧ (999999 : Int) < 0) := by norm_num
  have h2c : ¬ (((10 : Int) ^ 60 + 1).natAbs ≠ 0 ∧ (999999 : Int) <
      (numDigits (roundSig ((10 : Int) ^ 60 + 1).natAbs 60).1 : Int) - 1 +
        (if (0 : Int) ≤ 0 then ((roundSig ((10 : Int) ^ 60 + 1).natAbs 60).2 : Int) - 0
         else ((roundSig ((10 : Int) ^ 60 + 1).natAbs 60).2 : Int))) := by
    rw [hab]
    rintro ⟨-, hgt⟩
    rw [show (roundSig (10 ^ 60 + 1) 60).1 = 10 ^ 59 from by rw [hrs],
      show (roundSig (10 ^ 60 + 1) 60).2 = 1 from by rw [hrs], hnd59] at hgt
    norm_num at hgt
  have heq : fmt_amount ((10 : Int) ^ 60 + 1) 0 =
      some (fmt_amount_val ((10 : Int) ^ 60 + 1) 0) := fmt_amount_eq_val _ _ h1c h2c
  have hL : fmt_amount_val ((10 : Int) ^ 60 + 1) 0 = String.mk (natDigits (10 ^ 60)) := by
    rw [hv, fmt_amount_val_ofNat, hrs]
    norm_num [decFixedChars, decFixedMag]
  have hR : exactQuotientString ((10 : Int) ^ 60 + 1) 0 =
      String.mk (natDigits (10 ^ 60 + 1)) := by
    rw [hv]
    unfold exactQuotientString
    have hlt : ¬ (((10 ^ 60 + 1 : Nat) : Int) < 0) := by simp
    simp only [Int.natAbs_ofNat, decide_eq_false hlt]
    norm_num [decFixedChars, decFixedMag]
  intro h
  rw [heq, hL, hR] at h
  have hdata : natDigits (10 ^ 60) = natDigits (10 ^ 60 + 1) :=
    congrArg String.data (Option.some.inj h)
  have hinj := natDigits_inj hdata
  norm_num at hinj

/-- Unfolding of the magnitude rendering at a negative exponent. -/
theorem decFixedMag_eval_neg (c k : Nat) (e : Int) (he : ¬ 0 ≤ e) (hk : (-e).toNat = k) :
    decFixedMag c e =
      (if stripZeros (padZeros k (natDigits (c % 10 ^ k))) = []
       then natDigits (c / 10 ^ k)
       else natDigits (c / 10 ^ k) ++ '.' :: stripZeros (padZeros k (natDigits (c % 10 ^ k)))) := by
  simp only [decFixedMag, if_neg he, hk]

/-- The rendering of a positive value has no sign and is the magnitude. -/
theorem decFixedChars_pos (c : Nat) (hc : c ≠ 0) (e : Int) :
    decFixedChars false c e = decFixedMag c e := by
  simp [decFixedChars, hc]

/-- Digit count of zero. -/
theorem numDigits_zero : numDigits 0 = 1 := by
  simp [numDigits, natDigits_zero]

/-- The non-overflow value at zero is the single character 0 for every
decimal count. -/
theorem fmt_amount_val_zero (d : Int) : fmt_amount_val 0 d = "0" := by
  have hrs0 : roundSig 0 60 = (0, 0) := by
    simp only [roundSig]
    rw [if_pos (by rw [numDigits_zero]; norm_num)]
  have h0 : (0 : Int).natAbs = 0 := rfl
  have hlt : ¬ ((0 : Int) < 0) := by norm_num
  simp only [fmt_amount_val, h0, hrs0, decide_eq_false hlt, decFixedChars, if_pos rfl]
  rfl

/-- The non-overflow value renders one whole coin from 10 ^ 18 base
units. -/
theorem fmt_amount_val_pow18 : fmt_amount_val 1000000000000000000 18 = "1" := by
  have hv : (1000000000000000000 : Int) = ((10 ^ 18 : Nat) : Int) := by norm_num
  have hnd : numDigits (10 ^ 18) = 19 := numDigits_eq 18 _ (by norm_num) (by norm_num)
  have hrs : roundSig (10 ^ 18) 60 = (10 ^ 18, 0) := by
    simp only [roundSig]
    rw [if_pos (by rw [hnd]; norm_num)]
  rw [hv, fmt_amount_val_ofNat, hrs]
  have hred : decFixedChars false ((10 ^ 18, 0) : Nat × Nat).1
      (if 0 ≤ (18 : Int) then (((10 ^ 18, 0) : Nat × Nat).2 : Int) - 18
       else (((10 ^ 18, 0) : Nat × Nat).2 : Int)) =
      decFixedChars false (10 ^ 18) (-18) := by
    norm_num
  rw [hred, decFixedChars_pos _ (by positivity) _,
    decFixedMag_eval_neg _ 18 _ (by norm_num) (by decide)]
  rw [show (10 ^ 18 % 10 ^ 18 : Nat) = 0 from by norm_num, natDigits_zero]
  rw [show stripZeros (padZeros 18 ['0']) = [] from by decide, if_pos rfl]
  rw [show (10 ^ 18 / 10 ^ 18 : Nat) = 1 from by norm_num, natDigits_one]

/-- The non-overflow value renders one and a half coins from 15 * 10 ^ 17
base units. -/
theorem fmt_amount_val_onefive : fmt_amount_val 1500000000000000000 18 = "1.5" := by
  have hv : (1500000000000000000 : Int) = ((1500000000000000000 : Nat) : Int) := by norm_num
  have hnd : numDigits 1500000000000000000 = 19 := numDigits_eq 18 _ (by norm_num) (by norm_num)
  have hrs : roundSig 1500000000000000000 60 = (1500000000000000000, 0) := by
    simp only [roundSig]
    rw [if_pos (by rw [hnd]; norm_num)]
  rw [hv, fmt_amount_val_ofNat, hrs]
  have hred : decFixedChars false ((1500000000000000000, 0) : Nat × Nat).1
      (if 0 ≤ (18 : Int) then (((1500000000000000000, 0) : Nat × Nat).2 : Int) - 18
       else (((1500000000000000000, 0) : Nat × Nat).2 : Int)) =
      decFixedChars false 1500000000000000000 (-18) := by
    norm_num
  rw [hred, decFixedChars_pos _ (by positivity) _,
    decFixedMag_eval_neg _ 18 _ (by norm_num) (by decide)]
  rw [show (1500000000000000000 % 10 ^ 18 : Nat) = 5 * 10 ^ 17 from by norm_num]
  rw [natDigits_mul_pow 5 (by norm_num) 17]
  rw [show natDigits 5 = ['5'] from by rw [natDigits]; decide]
  rw [show stripZeros (padZeros 18 (['5'] ++ List.replicate 17 '0')) = ['5'] from by decide]
  rw [if_neg (by decide), show (1500000000000000000 / 10 ^ 18 : Nat) = 1 from by norm_num,
    natDigits_one]
  rfl

/-- The formatter returns one whole coin from 10 ^ 18 base units. -/
theorem fmt_amount_pow18 : fmt_amount 1000000000000000000 18 = some "1" := by
  have hab : (1000000000000000000 : Int).natAbs = 10 ^ 18 := by norm_num
  have hnd : numDigits (10 ^ 18) = 19 := numDigits_eq 18 _ (by norm_num) (by norm_num)
  have hrs : roundSig (10 ^ 18) 60 = (10 ^ 18, 0) := by
    simp only [roundSig]
    rw [if_pos (by rw [hnd]; norm_num)]
  have h1c : ¬ ((0 : Int) ≤ 18 ∧ (999999 : Int) < 18) := by norm_num
  have h2c : ¬ ((1000000000000000000 : Int).natAbs ≠ 0 ∧ (999999 : Int) <
      (numDigits (roundSig (1000000000000000000 : Int).natAbs 60).1 : Int) - 1 +
        (if (0 : Int) ≤ 18 then ((roundSig (1000000000000000000 : Int).natAbs 60).2 : Int) - 18
         else ((roundSig (1000000000000000000 : Int).natAbs 60).2 : Int))) := by
    rintro ⟨-, hgt⟩
    rw [show (roundSig (1000000000000000000 : Int).natAbs 60).1 = 10 ^ 18 from by
        rw [hab, hrs],
      show (roundSig (1000000000000000000 : Int).natAbs 60).2 = 0 from by
        rw [hab, hrs], hnd] at hgt
    norm_num at hgt
  rw [fmt_amount_eq_val _ _ h1c h2c, fmt_amount_val_pow18]

/-- The formatter returns one and a half coins from 15 * 10 ^ 17 base
units. -/
theorem fmt_amount_onefive : fmt_amount 1500000000000000000 18 = some "1.5" := by
  have hab : (1500000000000000000 : Int).natAbs = 1500000000000000000 := by norm_num
  have hnd : numDigits 1500000000000000000 = 19 := numDigits_eq 18 _ (by norm_num) (by norm_num)
  have hrs : roundSig 1500000000000000000 60 = (1500000000000000000, 0) := by
    simp only [roundSig]
    rw [if_pos (by rw [hnd]; norm_num)]
  have h1c : ¬ ((0 : Int) ≤ 18 ∧ (999999 : Int) < 18) := by norm_num
  have h2c : ¬ ((1500000000000000000 : Int).natAbs ≠ 0 ∧ (999999 : Int) <
      (numDigits (roundSig (1500000000000000000 : Int).natAbs 60).1 : Int) - 1 +
        (if (0 : Int) ≤ 18 then ((roundSig (1500000000000000000 : Int).natAbs 60).2 : Int) - 18
         else ((roundSig (1500000000000000000 : Int).natAbs 60).2 : Int))) := by
    rintro ⟨-, hgt⟩
    rw [show (roundSig (1500000000000000000 : Int).natAbs 60).1 = 1500000000000000000 from by
        rw [hab, hrs],
      show (roundSig (1500000000000000000 : Int).natAbs 60).2 = 0 from by
        rw [hab, hrs], hnd] at hgt
    norm_num at hgt
  rw [fmt_amount_eq_val _ _ h1c h2c, fmt_amount_val_onefive]

/-- Unfolded character data of a non-overflow formatted amount. -/
theorem fmt_amount_val_data (raw decimals : Int) :
    (fmt_amount_val raw decimals).data =
      decFixedChars (decide (raw < 0)) (roundSig raw.natAbs 60).1
        (if 0 ≤ decimals then ((roundSig raw.natAbs 60).2 : Int) - decimals
         else ((roundSig raw.natAbs 60).2 : Int)) := rfl

/-- C3 (amended): for a decimal count within the context exponent bound
(at most 999999) and a value of at most 60 significant digits (the
context precision), the formatter returns the exact quotient; the zero
value renders as the single character 0; the two concrete examples of
the specification hold; every returned string has no trailing decimal
point and no unnecessary trailing zero; a value of more than 60
significant digits is rounded to 60 significant digits half-even (the
kept coefficient is shifted by the digit excess, the result is a
multiple of the dropped power of ten, within half of it from the input,
and a tie picks the even coefficient), and the string returned for such
a value is the rendering of that rounded value; a decimal count above
999999 makes the scaling power exceed the exponent bound and the
trapped Overflow aborts the formatter instead of returning a string. -/
theorem C3_amended (v : Int) (d : Nat) (hd : d ≤ 999999) (h : numDigits v.natAbs ≤ 60) :
    fmt_amount v (d : Int) = some (exactQuotientString v d) ∧
    fmt_amount 0 (d : Int) = some "0" ∧
    fmt_amount 1000000000000000000 18 = some "1" ∧
    fmt_amount 1500000000000000000 18 = some "1.5" ∧
    (∀ s : String, fmt_amount v (d : Int) = some s →
      (∀ a, s.data.getLast? = some a → a ≠ '.') ∧
      ('.' ∈ s.data → ∀ a, s.data.getLast? = some a → a ≠ '0')) ∧
    (∀ m : Nat, 60 < numDigits m →
      (roundSig m 60).2 = numDigits m - 60 ∧
      (roundSig m 60).1 * 10 ^ (roundSig m 60).2 % 10 ^ (numDigits m - 60) = 0 ∧
      2 * Nat.dist ((roundSig m 60).1 * 10 ^ (roundSig m 60).2) m ≤
        10 ^ (numDigits m - 60) ∧
      (2 * Nat.dist ((roundSig m 60).1 * 10 ^ (roundSig m 60).2) m =
          10 ^ (numDigits m - 60) → (roundSig m 60).1 % 2 = 0)) ∧
    (∀ m : Nat, 0 < m →
      (numDigits (roundSig m 60).1 : Int) - 1 + ((roundSig m 60).2 : Int) ≤ 999999 →
      fmt_amount (m : Int) 0 =
        some (exactQuotientString
          (((roundSig m 60).1 * 10 ^ (roundSig m 60).2 : Nat) : Int) 0)) ∧
    (∀ d2 : Nat, 999999 < d2 → fmt_amount v (d2 : Int) = none) := by
  have hrs : roundSig v.natAbs 60 = (v.natAbs, 0) := by
    simp only [roundSig]
    rw [if_pos h]
  have h1c : ¬ ((0 : Int) ≤ (d : Int) ∧ (999999 : Int) < (d : Int)) := by
    rintro ⟨-, hgt⟩
    have hdi : (d : Int) ≤ 999999 := by exact_mod_cast hd
    omega
  have h2c : ¬ (v.natAbs ≠ 0 ∧ (999999 : Int) <
      (numDigits (roundSig v.natAbs 60).1 : Int) - 1 +
        (if (0 : Int) ≤ (d : Int) then ((roundSig v.natAbs 60).2 : Int) - (d : Int)
         else ((roundSig v.natAbs 60).2 : Int))) := by
    rintro ⟨-, hgt⟩
    rw [show (roundSig v.natAbs 60).1 = v.natAbs from by rw [hrs],
      show (roundSig v.natAbs 60).2 = 0 from by rw [hrs],
      if_pos (by positivity : (0 : Int) ≤ (d : Int))] at hgt
    have h60 : (numDigits v.natAbs : Int) ≤ 60 := by exact_mod_cast h
    have hd0 : (0 : Int) ≤ (d : Int) := by positivity
    push_cast at hgt
    omega
  have heqv : fmt_amount v (d : Int) = some (fmt_amount_val v (d : Int)) :=
    fmt_amount_eq_val _ _ h1c h2c
  have hval : fmt_amount_val v (d : Int) = exactQuotientString v d := by
    simp only [fmt_amount_val, exactQuotientString, hrs]
    rw [if_pos (by positivity : (0 : Int) ≤ (d : Int))]
    norm_num
  have hz : fmt_amount 0 (d : Int) = some "0" := by
    have h2z : ¬ ((0 : Int).natAbs ≠ 0 ∧ (999999 : Int) <
        (numDigits (roundSig (0 : Int).natAbs 60).1 : Int) - 1 +
          (if (0 : Int) ≤ (d : Int) then ((roundSig (0 : Int).natAbs 60).2 : Int) - (d : Int)
           else ((roundSig (0 : Int).natAbs 60).2 : Int))) := by
      rintro ⟨hne, -⟩
      exact hne rfl
    rw [fmt_amount_eq_val _ _ h1c h2z, fmt_amount_val_zero]
  refine ⟨by rw [heqv, hval], hz, fmt_amount_pow18, fmt_amount_onefive, ?_, ?_, ?_, ?_⟩
  · intro s hs
    rw [heqv] at hs
    obtain rfl := Option.some.inj hs
    constructor
    · intro a ha
      rw [fmt_amount_val_data] at ha
      exact (decFixedChars_getLast _ _ _ a ha).1
    · intro hdot a ha
      rw [fmt_amount_val_data] at ha
      rw [fmt_amount_val_data] at hdot
      exact (decFixedChars_getLast _ _ _ a ha).2 hdot
  · intro m hm
    have hcond : ¬ numDigits m ≤ 60 := by omega
    have hpw : 0 < 10 ^ (numDigits m - 60) := pow_pos (by norm_num) _
    simp only [roundSig, if_neg hcond]
    have hdm : m / 10 ^ (numDigits m - 60) * 10 ^ (numDigits m - 60) +
        m % 10 ^ (numDigits m - 60) = m := Nat.div_add_mod' m _
    have hrlt : m % 10 ^ (numDigits m - 60) < 10 ^ (numDigits m - 60) :=
      Nat.mod_lt _ hpw
    by_cases hb : 2 * (m % 10 ^ (numDigits m - 60)) > 10 ^ (numDigits m - 60) ∨
        (2 * (m % 10 ^ (numDigits m - 60)) = 10 ^ (numDigits m - 60) ∧
          m / 10 ^ (numDigits m - 60) % 2 = 1)
    · rw [if_pos hb]
      refine ⟨trivial, Nat.mul_mod_left _ _, ?_, ?_⟩
      · simp only [Nat.dist, add_one_mul]
        omega
      · intro htie
        simp only [Nat.dist, add_one_mul] at htie
        omega
    · rw [if_neg hb]
      push_neg at hb
      refine ⟨trivial, Nat.mul_mod_left _ _, ?_, ?_⟩
      · simp only [Nat.dist]
        omega
      · intro htie
        simp only [Nat.dist] at htie
        omega
  · intro m hm hbound
    have hmc : (roundSig m 60).1 ≠ 0 := (roundSig_fst_pos m hm).ne'
    have habm : ((m : Int)).natAbs = m := Int.natAbs_ofNat m
    have h1z : ¬ ((0 : Int) ≤ 0 ∧ (999999 : Int) < 0) := by norm_num
    have h2m : ¬ (((m : Int)).natAbs ≠ 0 ∧ (999999 : Int) <
        (numDigits (roundSig ((m : Int)).natAbs 60).1 : Int) - 1 +
          (if (0 : Int) ≤ 0 then ((roundSig ((m : Int)).natAbs 60).2 : Int) - 0
           else ((roundSig ((m : Int)).natAbs 60).2 : Int))) := by
      rw [habm]
      rintro ⟨-, hgt⟩
      rw [if_pos le_rfl] at hgt
      omega
    rw [fmt_amount_eq_val _ _ h1z h2m]
    congr 1
    rw [fmt_amount_val_ofNat]
    unfold exactQuotientString
    have habc : (((roundSig m 60).1 * 10 ^ (roundSig m 60).2 : Nat) : Int).natAbs =
        (roundSig m 60).1 * 10 ^ (roundSig m 60).2 := Int.natAbs_ofNat _
    have hneg : ¬ ((((roundSig m 60).1 * 10 ^ (roundSig m 60).2 : Nat) : Int) < 0) := by
      simp
    rw [habc, decide_eq_false hneg]
    rw [decFixedChars_pos _ hmc _,
      decFixedChars_pos _ (Nat.mul_ne_zero hmc (pow_pos (by norm_num) _).ne') _]
    rw [if_pos le_rfl]
    simp only [decFixedMag,
      if_pos (by simp : (0 : Int) ≤ ((roundSig m 60).2 : Int) - 0),
      if_pos (by norm_num : (0 : Int) ≤ -((0 : Nat) : Int))]
    norm_num
  · intro d2 hd2
    have hcond : (0 : Int) ≤ (d2 : Int) ∧ (999999 : Int) < (d2 : Int) :=
      ⟨by positivity, by exact_mod_cast hd2⟩
    simp only [fmt_amount, if_pos hcond]

/-- C3 (witness): the amended formatter theorem applied at the concrete
value 5 with 1 decimal. -/
theorem C3_witness :
    (1 : Nat) ≤ 999999 ∧ numDigits ((5 : Int)).natAbs ≤ 60 ∧
    fmt_amount 5 1 = some (exactQuotientString 5 1) := by
  have h5 : numDigits ((5 : Int)).natAbs ≤ 60 := by
    show numDigits 5 ≤ 60
    rw [numDigits, show natDigits 5 = ['5'] from by rw [natDigits]; decide]
    norm_num
  exact ⟨by norm_num, h5, (C3_amended 5 1 (by norm_num) h5).1⟩

/-- C1 (counterexample): a status 0 body whose message is neither NOTOK
nor a no-transactions message is returned unchanged as a success by the
gateway, not turned into a 502 UpstreamError as the claim states. -/
theorem C1_counterexample :
    ("0" : String) ≠ "1" ∧ ("Strange failure" : String) ≠ "NOTOK" ∧
    startsWithL ("no transactions".data) ((lowerStr "Strange failure").data) = false ∧
    etherscanClassify (fun _ => "")
        (⟨"0", "Strange failure", Payload.text "boom"⟩ : EtherscanBody RawEthItem) =
      .ok ⟨"0", "Strange failure", Payload.text "boom"⟩ :=
  ⟨by decide, by decide, by decide, rfl⟩

/-- C1 (amended): for every upstream body whose status is not the success
code and that is not covered by the NOTOK rule or the no-transactions
remap, the gateway does not fail: it returns the body unchanged as a
success (the defensive UpstreamError default of the specification is not
implemented). -/
theorem C1_amended {α : Type} (itemsRepr : List α → String) (b : EtherscanBody α)
    (h1 : b.status ≠ "1")
    (h2 : ¬ (b.status = "0" ∧ b.message = "NOTOK"))
    (h3 : ¬ (b.status = "0" ∧
      startsWithL ("no transactions".data) ((lowerStr b.message).data) = true)) :
    etherscanClassify itemsRepr b = .ok b := by
  unfold etherscanClassify
  rw [if_neg h2, if_neg h3]

/-- C1 (witness): the amended gateway pass-through theorem applied to a
concrete unrecognized body. -/
theorem C1_witness :
    etherscanClassify (fun _ : List RawEthItem => "")
        (⟨"7", "weird", Payload.text ""⟩ : EtherscanBody RawEthItem) =
      .ok ⟨"7", "weird", Payload.text ""⟩ :=
  C1_amended _ _ (by decide) (by decide) (by decide)

/-- C4 (confirmed): a status 0 body with message exactly NOTOK and a
non-empty free-text result fails with 429 carrying the text when it
contains rate limit case-insensitively, and with 502 carrying the text
otherwise. -/
theorem C4_notok_classification {α : Type} (itemsRepr : List α → String)
    (r : String) (hr : r ≠ "") :
    (hasSubstr ("rate limit".data) ((lowerStr r).data) = true →
      etherscanClassify itemsRepr (⟨"0", "NOTOK", Payload.text r⟩ : EtherscanBody α) =
        .error ⟨429, "Etherscan: " ++ r⟩) ∧
    (hasSubstr ("rate limit".data) ((lowerStr r).data) = false →
      etherscanClassify itemsRepr (⟨"0", "NOTOK", Payload.text r⟩ : EtherscanBody α) =
        .error ⟨502, "Etherscan error: " ++ r⟩) := by
  constructor <;> intro hsub <;>
    simp [etherscanClassify, payloadDetail, hr, hsub]

/-- C4 (witness): the NOTOK classification applied to the concrete
rate-limit text the source comments quote. -/
theorem C4_witness :
    etherscanClassify (fun _ : List RawEthItem => "")
        (⟨"0", "NOTOK", Payload.text "Max rate limit reached"⟩ : EtherscanBody RawEthItem) =
      .error ⟨429, "Etherscan: " ++ "Max rate limit reached"⟩ :=
  (C4_notok_classification _ "Max rate limit reached" (by decide)).1 (by decide)

/-- C5 (confirmed): a status 0 body whose message starts with no
transactions case-insensitively is remapped to a successful body with an
empty result list, never to an error. -/
theorem C5_no_transactions_remap {α : Type} (itemsRepr : List α → String)
    (m : String) (r : Payload α)
    (hm : startsWithL ("no transactions".data) ((lowerStr m).data) = true) :
    etherscanClassify itemsRepr ⟨"0", m, r⟩ = .ok ⟨"1", "", .items []⟩ := by
  have hne : ¬ (("0" : String) = "0" ∧ m = "NOTOK") := by
    rintro ⟨-, rfl⟩
    exact absurd hm (by decide)
  unfold etherscanClassify
  rw [if_neg hne, if_pos ⟨rfl, hm⟩]

/-- C5 (witness): the remap theorem applied to the literal upstream
message. -/
theorem C5_witness :
    etherscanClassify (fun _ : List RawEthItem => "")
        (⟨"0", "No transactions found", Payload.items []⟩ : EtherscanBody RawEthItem) =
      .ok ⟨"1", "", Payload.items []⟩ :=
  C5_no_transactions_remap _ "No transactions found" (Payload.items []) (by decide)

/-- C6 (confirmed): the direction rule, shared by both normalizers: out
when the sender matches the queried address case-insensitively, else in
when the recipient does, else other, together with the concrete triples
of the specification. -/
theorem C6_direction_rule (me f t : String) (it : RawEthItem) (jt : RawTokenItem) :
    (lowerStr f = lowerStr me → direction me f t = "out") ∧
    (lowerStr f ≠ lowerStr me → lowerStr t = lowerStr me → direction me f t = "in") ∧
    (lowerStr f ≠ lowerStr me → lowerStr t ≠ lowerStr me → direction me f t = "other") ∧
    (normalize_eth_item me it).direction =
      direction me (it.fromAddr.getD "") (it.toAddr.getD "") ∧
    (normalize_erc20_item me jt).direction =
      direction me (jt.fromAddr.getD "") (jt.toAddr.getD "") ∧
    direction "0xAbC" "0xabc" "0xdef" = "out" ∧
    direction "0xAbC" "0xdef" "0xABC" = "in" ∧
    direction "0xAbC" "0xdef" "0x123" = "other" := by
  refine ⟨?_, ?_, ?_, rfl, rfl, by decide, by decide, by decide⟩
  · intro h
    simp [direction, h]
  · intro h1 h2
    simp [direction, h1, h2]
  · intro h1 h2
    simp [direction, h1, h2]

/-- C6 (witness): the direction rule applied to a concrete queried
address matching the sender in a different case. -/
theorem C6_witness : direction "0xA" "0xa" "0xb" = "out" :=
  (C6_direction_rule "0xA" "0xa" "0xb" ⟨0, "h", none, none, none, none, none, none⟩
    ⟨0, "h", none, none, none, none, none, none⟩).1 (by decide)

/-- C9 (confirmed): when sender and recipient both equal the queried
address case-insensitively, the sender comparison wins and the direction
is out. -/
theorem C9_self_transfer (me f t : String)
    (hf : lowerStr f = lowerStr me) (ht : lowerStr t = lowerStr me) :
    direction me f t = "out" := by
  simp [direction, hf]

/-- C9 (witness): the self-transfer theorem at a concrete address pair in
mixed case. -/
theorem C9_witness : direction "0xAb" "0xaB" "0xAB" = "out" :=
  C9_self_transfer "0xAb" "0xaB" "0xAB" (by decide) (by decide)

/-- C10 (confirmed): the token normalizer always writes an empty invoked
function name into its output item. -/
theorem C10_erc20_functionName (me : String) (it : RawTokenItem) :
    (normalize_erc20_item me it).functionName = "" := rfl

/-- C7 (confirmed): the native normalizer scales the value with 18
decimals, derives failed / success / unknown from the error and receipt
flags, and takes the invoked function name as the prefix of the signature
before the first opening parenthesis, empty when the signature is
absent. -/
theorem C7_eth_normalizer (me : String) (it : RawEthItem) :
    (normalize_eth_item me it).amount = fmt_amount_val (it.value.getD 0) 18 ∧
    (it.isError = some "1" → (normalize_eth_item me it).status = some "failed") ∧
    (it.isError ≠ some "1" → it.txreceipt_status = some "1" →
      (normalize_eth_item me it).status = some "success") ∧
    (it.isError ≠ some "1" → it.txreceipt_status ≠ some "1" →
      (normalize_eth_item me it).status = some "unknown") ∧
    (∃ rest, (it.functionName.getD "").data =
        (normalize_eth_item me it).functionName.data ++ rest ∧
      (∀ c ∈ (normalize_eth_item me it).functionName.data, c ≠ '(') ∧
      (rest = [] ∨ rest.head? = some '(')) ∧
    (it.functionName = none → (normalize_eth_item me it).functionName = "") := by
  refine ⟨rfl, ?_, ?_, ?_, ?_, ?_⟩
  · intro h
    simp [normalize_eth_item, h]
  · intro h1 h2
    simp [normalize_eth_item, h1, h2]
  · intro h1 h2
    simp [normalize_eth_item, h1, h2]
  · refine ⟨(it.functionName.getD "").data.dropWhile (fun c => c ≠ '('), ?_, ?_, ?_⟩
    · show (it.functionName.getD "").data =
        ((it.functionName.getD "").data.takeWhile (fun c => c ≠ '(')) ++
          ((it.functionName.getD "").data.dropWhile (fun c => c ≠ '('))
      exact (List.takeWhile_append_dropWhile _ _).symm
    · intro c hc
      have hmem : c ∈ (it.functionName.getD "").data.takeWhile (fun ch => ch ≠ '(') := hc
      have hp := List.mem_takeWhile_imp hmem
      exact of_decide_eq_true hp
    · cases hdw : (it.functionName.getD "").data.dropWhile (fun c => c ≠ '(') with
      | nil =>
          left
          rfl
      | cons a rest2 =>
          right
          have hh : ((it.functionName.getD "").data.dropWhile (fun c => c ≠ '(')).head? =
              some a := by
            rw [hdw]
            rfl
          have hfail := head_dropWhile_ne _ _ _ hh
          simp only [decide_eq_false_iff_not, not_not] at hfail
          simp [hfail]
  · intro h
    simp [normalize_eth_item, beforeParen, h]

/-- C7 (witness): the native normalizer theorem applied to a concrete
failed transaction record with a parenthesized signature. -/
theorem C7_witness :
    (normalize_eth_item "0xA"
      ⟨7, "0xh", some "0xa", some "0xb", some 5, some "1", some "0",
        some "transfer(address dst)"⟩).status = some "failed" :=
  (C7_eth_normalizer "0xA"
    ⟨7, "0xh", some "0xa", some "0xb", some 5, some "1", some "0",
      some "transfer(address dst)"⟩).2.1 rfl

/-- C2 (confirmed): the aggregator concatenates the normalized native
list before the token list, sorts stably by timestamp descending
(descending pairwise order, a permutation of the concatenation, and
per-timestamp classes in original order), truncates to the first N, and
counts categories over the truncated list only; the concrete
specification example with native timestamps 100 and 50, token timestamp
80 and limit 2 returns the timestamps 100 and 80 with one item counted in
each category. -/
theorem C2_merge_sort_truncate (address : String) (N : Nat)
    (ethRaw : List RawEthItem) (tokRaw : List RawTokenItem)
    (hN1 : 1 ≤ N) (hN2 : N ≤ 200) :
    ((get_transactions_core address N ethRaw tokRaw).items =
      (sortByTsDesc (ethRaw.map (normalize_eth_item address) ++
        tokRaw.map (normalize_erc20_item address))).take N ∧
     (sortByTsDesc (ethRaw.map (normalize_eth_item address) ++
        tokRaw.map (normalize_erc20_item address))).Pairwise
          (fun a b => b.timestamp ≤ a.timestamp) ∧
     (sortByTsDesc (ethRaw.map (normalize_eth_item address) ++
        tokRaw.map (normalize_erc20_item address))).Perm
          (ethRaw.map (normalize_eth_item address) ++
            tokRaw.map (normalize_erc20_item address)) ∧
     (∀ t, (sortByTsDesc (ethRaw.map (normalize_eth_item address) ++
        tokRaw.map (normalize_erc20_item address))).filter
          (fun x => x.timestamp == t) =
        (ethRaw.map (normalize_eth_item address) ++
          tokRaw.map (normalize_erc20_item address)).filter
            (fun x => x.timestamp == t)) ∧
     (get_transactions_core address N ethRaw tokRaw).countETH =
       (get_transactions_core address N ethRaw tokRaw).items.countP
         (fun x => x.type == "ETH") ∧
     (get_transactions_core address N ethRaw tokRaw).countERC20 =
       (get_transactions_core address N ethRaw tokRaw).items.countP
         (fun x => x.type == "ERC20")) ∧
    ((get_transactions_core "0xq" 2
        [⟨100, "0xh1", none, none, none, none, none, none⟩,
         ⟨50, "0xh2", none, none, none, none, none, none⟩]
        [⟨80, "0xh3", none, none, none, none, none, none⟩]).items.map
          (fun x => x.timestamp) = [100, 80] ∧
     (get_transactions_core "0xq" 2
        [⟨100, "0xh1", none, none, none, none, none, none⟩,
         ⟨50, "0xh2", none, none, none, none, none, none⟩]
        [⟨80, "0xh3", none, none, none, none, none, none⟩]).countETH = 1 ∧
     (get_transactions_core "0xq" 2
        [⟨100, "0xh1", none, none, none, none, none, none⟩,
         ⟨50, "0xh2", none, none, none, none, none, none⟩]
        [⟨80, "0xh3", none, none, none, none, none, none⟩]).countERC20 = 1 ∧
     (get_transactions_core "0xq" 2
        [⟨100, "0xh1", none, none, none, none, none, none⟩,
         ⟨50, "0xh2", none, none, none, none, none, none⟩]
        [⟨80, "0xh3", none, none, none, none, none, none⟩]).returned = 2) := by
  refine ⟨⟨rfl, sortByTsDesc_pairwise _, sortByTsDesc_perm _,
    fun t => sortByTsDesc_filter t _, rfl, rfl⟩, ?_, ?_, ?_, ?_⟩
  · decide
  · decide
  · decide
  · decide

/-- C2 (witness): the merge theorem applied at the concrete
specification example, reading off the truncated timestamps. -/
theorem C2_witness :
    (get_transactions_core "0xq" 2
      [⟨100, "0xh1", none, none, none, none, none, none⟩,
       ⟨50, "0xh2", none, none, none, none, none, none⟩]
      [⟨80, "0xh3", none, none, none, none, none, none⟩]).items.map
        (fun x => x.timestamp) = [100, 80] :=
  (C2_merge_sort_truncate "0xq" 2 [] [] (by decide) (by decide)).2.1

/-- C8 (amended): canonical addresses pass validation; every address
passing validation is canonical or is canonical with one trailing
newline (the Python dollar-anchor quirk); any other address is rejected
with a 400 before the upstream bodies influence anything; and a limit of
0 or 201 is rejected by the query-parameter bound, not clamped. -/
theorem C8_amended (reprE : List RawEthItem → String) (reprT : List RawTokenItem → String)
    (addr : String) (limit : Int)
    (eth : EtherscanBody RawEthItem) (tok : EtherscanBody RawTokenItem) :
    (isCanonicalAddress addr = true → is_valid_address addr = true) ∧
    (is_valid_address addr = true → isCanonicalAddress addr = true ∨
      (addr.data.getLast? = some '\n' ∧
        isCanonicalAddress (String.mk addr.data.dropLast) = true)) ∧
    (is_valid_address addr = false → 1 ≤ limit → limit ≤ 200 →
      get_transactions reprE reprT addr limit eth tok =
        .error ⟨400, "Invalid address. Expected a 0x EVM address."⟩) ∧
    ((limit = 0 ∨ limit = 201) →
      get_transactions reprE reprT addr limit eth tok =
        .error ⟨422, "limit must be in the inclusive range 1..200"⟩) := by
  refine ⟨?_, ?_, ?_, ?_⟩
  · intro h
    simp only [isCanonicalAddress, Bool.and_eq_true] at h
    obtain ⟨hs, hlen, hhex⟩ := h
    simp at hlen
    simp [is_valid_address, hs, hlen, hhex]
  · intro h
    simp only [is_valid_address, Bool.and_eq_true, Bool.or_eq_true] at h
    obtain ⟨hstart, hrest⟩ := h
    rcases hrest with hA | hB
    · left
      have hlen := hA.1
      simp at hlen
      simp [isCanonicalAddress, hstart, hlen, hA.2]
    · right
      have hlen := hB.1.1
      have htake := hB.1.2
      have hlast := hB.2
      simp only [beq_iff_eq] at hlen hlast
      have hpre : ("0x".data : List Char) = ['0', 'x'] := rfl
      have hdec : ['0', 'x'] ++ addr.data.drop 2 = addr.data := by
        have hd := startsWithL_decomp ("0x".data) addr.data hstart
        rw [hpre] at hd
        simpa using hd
      have hne : addr.data.drop 2 ≠ [] := by
        intro hnil
        rw [hnil] at hlen
        simp at hlen
      constructor
      · rw [← hdec, List.getLast?_append_of_ne_nil _ hne]
        exact hlast
      · rw [← hdec]
        have hdl : (['0', 'x'] ++ addr.data.drop 2).dropLast =
            ['0', 'x'] ++ (addr.data.drop 2).take 40 := by
          rw [List.dropLast_eq_take, List.length_append, hlen]
          norm_num [List.take_append_eq_append_take]
        rw [hdl]
        simp [isCanonicalAddress, startsWithL, List.length_take, hlen, htake]
  · intro hv h1 h2
    rw [get_transactions, if_neg (not_not_intro ⟨h1, h2⟩), if_pos (by simp [hv])]
  · intro hl
    rcases hl with rfl | rfl
    · rw [get_transactions, if_pos (by omega)]
    · rw [get_transactions, if_pos (by omega)]

/-- C8 (counterexample): an address consisting of the canonical 42
characters plus one trailing newline is not exactly the canonical form,
yet the regex accepts it and the request is served rather than rejected
with a 400. -/
theorem C8_counterexample :
    isCanonicalAddress "0xaaaaaaaaaaaaaaaaaaaaaaaaaaaaaaaaaaaaaaaa\n" = false ∧
    is_valid_address "0xaaaaaaaaaaaaaaaaaaaaaaaaaaaaaaaaaaaaaaaa\n" = true ∧
    get_transactions (fun _ => "") (fun _ => "")
        "0xaaaaaaaaaaaaaaaaaaaaaaaaaaaaaaaaaaaaaaaa\n" 25
        ⟨"1", "OK", Payload.items []⟩ ⟨"1", "OK", Payload.items []⟩ =
      .ok ⟨"0xaaaaaaaaaaaaaaaaaaaaaaaaaaaaaaaaaaaaaaaa\n", 0, 0, 0, []⟩ := by
  refine ⟨by decide, by decide, ?_⟩
  rfl

/-- C8 (witness): the amended validation theorem applied to a concrete
malformed address within a well-formed limit. -/
theorem C8_witness :
    get_transactions (fun _ : List RawEthItem => "") (fun _ : List RawTokenItem => "")
        "0xzz" 25 ⟨"1", "OK", Payload.items []⟩ ⟨"1", "OK", Payload.items []⟩ =
      .error ⟨400, "Invalid address. Expected a 0x EVM address."⟩ :=
  (C8_amended (fun _ => "") (fun _ => "") "0xzz" 25
    ⟨"1", "OK", Payload.items []⟩ ⟨"1", "OK", Payload.items []⟩).2.2.1
    (by decide) (by decide) (by decide)
